import Mathlib

/-!
Verification of the pmda repository (Embedded Topic Model driver and corpus
preprocessing) against its natural-language specification.

The development shallowly embeds the two source files:

* `src/main_ETM.py` — the training driver.  The model-selection / learning-rate
  annealing logic of the epoch loop (lines 131-159) is embedded as a step
  function `selectStep` on an explicit state `SelState`, folded over the list
  of per-epoch validation perplexities by `selectRun`.  Python float values
  returned by `model.evaluate` are embedded as `PyFloat` (a rational or NaN),
  so that Python's comparison semantics on NaN are preserved; learning rates
  and factors are embedded as rationals.  Python exceptions (`ValueError` from
  `min([])`, `ZeroDivisionError` from `lr /= 0.0`, `FileNotFoundError` from
  reopening a missing checkpoint) are embedded through `Except PyErr`.

* `src/preprocessing.py` — the corpus preprocessing pipeline.  The
  train/test/validation split, the vocabulary restriction to the training
  corpus, the removal of empty / length-1 documents, the halving of test
  documents, and the bag-of-words artifacts are embedded in `splitStage` /
  `preprocessing`.  Python's (and numpy's) sequence indexing — negative
  indices wrap once, out-of-range indices raise `IndexError` — is embedded by
  `pyGet`; `int(np.floor(..))` on a rational times a size is `floorMulNat`
  (proved equal to `Int.floor`); `range(k)` for a possibly negative Python
  int is `pyRange`.
-/

/-- Python exceptions that the embedded code can raise. -/
inductive PyErr where
  | valueError
  | indexError
  | zeroDivisionError
  | fileNotFoundError
deriving DecidableEq, Repr

/-- A Python float as used for perplexities: either NaN or a (rational) value.
Ordinary finite float arithmetic is idealised as rational arithmetic; what
matters for the embedded control flow is Python's comparison semantics, under
which every comparison against NaN is `False`. -/
inductive PyFloat where
  | nan
  | val (q : ℚ)
deriving DecidableEq, Repr

/-- Python `a < b` on floats: any comparison involving NaN is false. -/
def pyLt : PyFloat → PyFloat → Bool
  | .val a, .val b => decide (a < b)
  | _, _ => false

/-- Python `a > b` on floats. -/
def pyGt (a b : PyFloat) : Bool := pyLt b a

/-- Python `min(lst)` over a list of floats: raises `ValueError` on an empty
list (embedded as `none`); otherwise folds left keeping the current minimum,
replacing it exactly when the next item compares `<` to it (CPython's `min`). -/
def pyMin : List PyFloat → Option PyFloat
  | [] => none
  | a :: l => some (l.foldl (fun b x => if pyLt x b then x else b) a)

/-- Python slice `l[:-n]` for a non-negative int `n`: for `n = 0` this is
`l[:0] = []` (since `-0 == 0`), otherwise the list without its last `n`
elements. -/
def pySliceToNeg (l : List α) (n : ℕ) : List α :=
  if n = 0 then [] else l.take (l.length - n)

/-- Python `range(z)` for a possibly negative int: empty when `z ≤ 0`. -/
def pyRange (z : ℤ) : List ℕ :=
  if z ≤ 0 then [] else List.range z.toNat

/-- Resolution of a Python/numpy sequence index `i` against length `n`:
negative indices wrap once; anything still out of `[0, n)` is an error. -/
def pyIndex (n : ℕ) (i : ℤ) : Option ℕ :=
  if 0 ≤ i then (if i < (n : ℤ) then some i.toNat else none)
  else (if 0 ≤ i + (n : ℤ) then some (i + (n : ℤ)).toNat else none)

/-- Python subscription `l[i]`: `IndexError` when the index does not resolve. -/
def pyGet (l : List α) (i : ℤ) : Except PyErr α :=
  match pyIndex l.length i with
  | some j =>
    match l.get? j with
    | some a => .ok a
    | none => .error .indexError
  | none => .error .indexError

/-- Exact rational division, implemented on numerator/denominator so that it
evaluates by kernel reduction (Mathlib's `Rat.div` does not); the lemma
`ratDiv_eq_div` below proves it equal to `· / ·` on `ℚ`, including the
`x / 0 = 0` convention. -/
def ratDiv (a b : ℚ) : ℚ :=
  if 0 ≤ b.num then mkRat (a.num * b.den) (a.den * b.num.toNat)
  else mkRat (-(a.num * b.den)) (a.den * (-b.num).toNat)

/-- `int(np.floor(q * n))` for a rational `q` and a natural `n`, implemented
with integer (floor) division so that it evaluates by kernel reduction; the
lemma `floorMulNat_eq` below proves it equal to `⌊q * n⌋`. -/
def floorMulNat (q : ℚ) (n : ℕ) : ℤ :=
  (q.num * (n : ℤ)) / (q.den : ℤ)

/-- The literal `1e-5` appearing in the annealing guard of `main_ETM.py`
line 150 (idealised as the exact rational `1/100000`). -/
def lrFloor : ℚ := mkRat 1 100000

/-- The state visible to the model selector / annealer of `main_ETM.py`
(lines 133-156): the best epoch and best validation perplexity seen so far,
the full history `all_val_ppls`, the optimizer's learning rate, whether the
checkpoint file at `ckpt` exists, and how many times it has been written
during this run. -/
structure SelState where
  bestEpoch : ℕ
  bestValPpl : PyFloat
  allValPpls : List PyFloat
  lr : ℚ
  ckptExists : Bool
  saves : ℕ
deriving DecidableEq, Repr

/-- One epoch of the model-selection / annealing logic of `main_ETM.py`
lines 142-154, entered after `val_ppl` has been computed by `model.evaluate`:

* if `val_ppl < best_val_ppl` the model is written to the checkpoint and the
  best epoch/value are updated;
* otherwise, if `anneal_lr and (len(all_val_ppls) > nonmono and
  val_ppl > min(all_val_ppls[:-nonmono]) and lr > 1e-5)` the learning rate is
  divided by `lr_factor` (`min` of an empty slice raises `ValueError`;
  a zero factor raises `ZeroDivisionError`);
* in either case `val_ppl` is then appended to `all_val_ppls` (line 154).

The returned `Bool` records whether the checkpoint was written this epoch.
(The `visualize_every` branch of line 152-153 touches none of this state and
is omitted.) -/
def selectStep (annealLr : Bool) (nonmono : ℕ) (lrFactor : ℚ)
    (epoch : ℕ) (valPpl : PyFloat) (s : SelState) :
    Except PyErr (SelState × Bool) :=
  if pyLt valPpl s.bestValPpl then
    .ok ({ s with
            bestEpoch := epoch
            bestValPpl := valPpl
            ckptExists := true
            saves := s.saves + 1
            allValPpls := s.allValPpls ++ [valPpl] }, true)
  else
    match (if annealLr then
             if nonmono < s.allValPpls.length then
               match pyMin (pySliceToNeg s.allValPpls nonmono) with
               | none => Except.error PyErr.valueError
               | some m => .ok (pyGt valPpl m && decide (lrFloor < s.lr))
             else .ok false
           else .ok false : Except PyErr Bool) with
    | .error e => .error e
    | .ok true =>
      if lrFactor = 0 then .error .zeroDivisionError
      else .ok ({ s with
                   lr := ratDiv s.lr lrFactor
                   allValPpls := s.allValPpls ++ [valPpl] }, false)
    | .ok false => .ok ({ s with allValPpls := s.allValPpls ++ [valPpl] }, false)

/-- Modelled from the spec: `model.train_for_epoch` lives in `src/etm.py`,
which is not included in the sources; per spec §4.5-4.6 it performs the
per-batch parameter updates only, and the learning rate changes only between
epochs, so on the selector-visible learning rate it is the identity. -/
def trainForEpochLr (lr : ℚ) : ℚ := lr

/-- The epoch loop of `main_ETM.py` lines 136-154, restricted to the
selector-visible state: each epoch first runs `train_for_epoch` (identity on
this state), then evaluates (the white-box perplexity for epoch `e` is
`ppls[e]`), then runs `selectStep`. -/
def selectRun (annealLr : Bool) (nonmono : ℕ) (lrFactor : ℚ) :
    ℕ → List PyFloat → SelState → Except PyErr SelState
  | _, [], s => .ok s
  | e, p :: ps, s =>
    match selectStep annealLr nonmono lrFactor e p
        { s with lr := trainForEpochLr s.lr } with
    | .error err => .error err
    | .ok (s2, _) => selectRun annealLr nonmono lrFactor (e + 1) ps s2

/-- The initial selector state of `main_ETM.py` lines 133-135:
`best_epoch = 0`, `best_val_ppl = 1e9`, `all_val_ppls = []`; the checkpoint
file may or may not exist from a previous run. -/
def initSelState (preexists : Bool) (lr0 : ℚ) : SelState :=
  ⟨0, .val 1000000000, [], lr0, preexists, 0⟩

/-- The end-of-training reload of `main_ETM.py` lines 155-156:
`open(ckpt, 'rb')` raises `FileNotFoundError` when the checkpoint file does
not exist. -/
def ckptReload (s : SelState) : Except PyErr Unit :=
  if s.ckptExists then .ok () else .error .fileNotFoundError

/-- The split labels passed as the positional `source` argument of every
`model.evaluate` call issued by `main_ETM` (in driver order): in train mode
one call per epoch (line 139-140) plus the end-of-training call after the
reload (line 158-159); in any other mode the single eval-mode call
(line 168-169).  Every one of these call sites passes the literal `'val'`. -/
def mainETMEvalLabels (mode : String) (epochs : ℕ) : List String :=
  if mode = "train" then
    (List.range epochs).map (fun _ => "val") ++ ["val"]
  else
    ["val"]

/-- Modelled from the spec claim under test (C1): the four annealing
conditions in the spec's own words — annealing enabled, at least `nonmono`
epochs of history, current perplexity exceeding the minimum of all history
entries older than the patience window (the history without its most recent
`nonmono` entries — a minimum that exists only when that window is
non-empty), and the learning rate above the `1e-5` floor.  To be compared
with the gate actually evaluated by `selectStep`. -/
def specAnnealConds (annealLr : Bool) (nonmono : ℕ) (hist : List PyFloat)
    (valPpl : PyFloat) (lr : ℚ) : Bool :=
  annealLr && decide (nonmono ≤ hist.length) &&
    Option.any (fun m => pyGt valPpl m) (pyMin (hist.take (hist.length - nonmono))) &&
    decide (lrFloor < lr)

/-- Indexed filtering: the Python pattern `[w for i, w in enumerate(doc) if q(i)]`,
with `i` counting from the given start. -/
def filterIdx (q : ℕ → Bool) : ℕ → List α → List α
  | _, [] => []
  | i, a :: l => if q i then a :: filterIdx q (i + 1) l else filterIdx q (i + 1) l

/-- The cut threshold `len(doc)/2.0 - 1` of `preprocessing.py` lines 151-152,
written as the exact rational `(n - 2)/2` so that it evaluates by kernel
reduction; the lemma `halfThreshold_eq` below proves it equal to
`n/2 - 1` in `ℚ`.  (Python computes it in double precision, which is exact
here: a division by two and a subtraction of 1 on integers of this size
incur no rounding.) -/
def halfThreshold (n : ℕ) : ℚ := mkRat ((n : ℤ) - 2) 2

/-- First half of a test document, `preprocessing.py` line 151:
`[w for i, w in enumerate(doc) if i <= len(doc)/2.0 - 1]`. -/
def firstHalf (doc : List ℕ) : List ℕ :=
  filterIdx (fun i => decide ((i : ℚ) ≤ halfThreshold doc.length)) 0 doc

/-- Second half of a test document, `preprocessing.py` line 152:
`[w for i, w in enumerate(doc) if i > len(doc)/2.0 - 1]`. -/
def secondHalf (doc : List ℕ) : List ℕ :=
  filterIdx (fun i => decide (halfThreshold doc.length < (i : ℚ))) 0 doc

/-- `remove_empty` of `preprocessing.py` lines 120-129 (restricted to the
document lists; the parallel timestamp/index lists are filtered by the same
positions and are not needed by any claim): keep the documents with
`doc != []`. -/
def removeEmptyDocs (docs : List (List ℕ)) : List (List ℕ) :=
  docs.filter (fun d => !d.isEmpty)

/-- `remove_by_threshold` of `preprocessing.py` lines 131-140 (same
restriction): keep the documents with `len(doc) > thr`. -/
def removeByThreshold (docs : List (List ℕ)) (thr : ℕ) : List (List ℕ) :=
  docs.filter (fun d => decide (thr < d.length))

/-- The inner part of the comprehensions of `preprocessing.py` lines 96-98:
`[word2id[w] for w in doc if w in word2id]`, where `word2id` maps the `j`-th
word of `vocab` to `j` (line 91). -/
def tokenizeDoc (vocab : List ℕ) (d : List ℕ) : List ℕ :=
  (d.filter (fun w => vocab.contains w)).map (fun w => vocab.indexOf w)

/-- Left-to-right effectful list construction, as a Python list comprehension
evaluates: the first raised exception aborts the whole comprehension. -/
def mapExcept (f : α → Except PyErr β) : List α → Except PyErr (List β)
  | [] => .ok []
  | x :: xs =>
    match f x with
    | .error e => .error e
    | .ok y =>
      match mapExcept f xs with
      | .error e => .error e
      | .ok ys => .ok (y :: ys)

/-- Arguments of `preprocessing` (`preprocessing.py` line 14) as visible to
the claims.  `docs` holds each document's whitespace-split word sequence with
words abstracted to naturals; `keep` is membership in `word2id` as it stands
before line 90, i.e. the vocabulary produced by the `CountVectorizer`
(external sklearn code, out of the spec's scope) after stopword removal;
`idxPermute` is the permutation drawn at line 87 (numpy RNG, external);
`folderExists` records whether the output folder of line 30 already exists. -/
structure PrepArgs where
  folderExists : Bool
  docs : List (List ℕ)
  keep : ℕ → Bool
  dataSplit : List ℚ
  idxPermute : List ℕ

/-- The documents and vocabulary as they stand after `preprocessing.py`
line 152. -/
structure SplitOut where
  vocab : List ℕ
  docsTr : List (List ℕ)
  docsTs : List (List ℕ)
  docsVa : List (List ℕ)
  docsTsH1 : List (List ℕ)
  docsTsH2 : List (List ℕ)
deriving DecidableEq, Repr

/-- Lines 143-152: remove empty documents from all three splits, drop test
documents of length ≤ 1, and split each surviving test document in two
halves. -/
def mkSplitOut (vocab : List ℕ) (docsTr0 docsTs0 docsVa0 : List (List ℕ)) :
    SplitOut :=
  let docsTr := removeEmptyDocs docsTr0
  let docsTs := removeByThreshold (removeEmptyDocs docsTs0) 1
  let docsVa := removeEmptyDocs docsVa0
  ⟨vocab, docsTr, docsTs, docsVa, docsTs.map firstHalf, docsTs.map secondHalf⟩

/-- Fetch `docs[idx_permute[i]].split()` filtered by membership in the
pre-split vocabulary — the body of the comprehension at line 90. -/
def fetchKeptWords (a : PrepArgs) (i : ℤ) : Except PyErr (List ℕ) :=
  match pyGet a.idxPermute i with
  | .error e => .error e
  | .ok p =>
    match pyGet a.docs (p : ℤ) with
    | .error e => .error e
    | .ok d => .ok (d.filter a.keep)

/-- Fetch `docs[idx_permute[i]]` and tokenize it against the train-restricted
vocabulary — the body of the comprehensions at lines 96-98. -/
def fetchTokenized (a : PrepArgs) (vocab : List ℕ) (i : ℤ) :
    Except PyErr (List ℕ) :=
  match pyGet a.idxPermute i with
  | .error e => .error e
  | .ok p =>
    match pyGet a.docs (p : ℤ) with
    | .error e => .error e
    | .ok d => .ok (tokenizeDoc vocab d)

/-- `preprocessing.py` lines 82-152: compute the split sizes
(`trSize = int(np.floor(data_split[0]*num_docs))` etc., line 83-85), restrict
the vocabulary to the words of the train documents (line 90), tokenize the
three splits (lines 96-98), and post-process them (lines 143-152).  The
Python `set(...)` at line 90 is modelled by deduplication; no claim depends
on the iteration order of a Python set. -/
def splitStage (a : PrepArgs) : Except PyErr SplitOut :=
  (pyGet a.dataSplit 0).bind fun ds0 =>
  (pyGet a.dataSplit 1).bind fun ds1 =>
  let n : ℕ := a.docs.length
  let trSize : ℤ := floorMulNat ds0 n
  let tsSize : ℤ := floorMulNat ds1 n
  let vaSize : ℤ := (n : ℤ) - trSize - tsSize
  (mapExcept (fun idx => fetchKeptWords a (idx : ℤ)) (pyRange trSize)).bind fun kept =>
  let vocab := kept.flatten.dedup
  (mapExcept (fun idx => fetchTokenized a vocab (idx : ℤ)) (pyRange trSize)).bind fun docsTr0 =>
  (mapExcept (fun idx => fetchTokenized a vocab ((idx : ℤ) + trSize)) (pyRange tsSize)).bind fun docsTs0 =>
  (mapExcept (fun idx => fetchTokenized a vocab ((idx : ℤ) + trSize + tsSize)) (pyRange vaSize)).bind fun docsVa0 =>
  .ok (mkSplitOut vocab docsTr0 docsTs0 docsVa0)

/-- One row of the saved sparse bag-of-words artifacts: the composite of
`create_list_words` / `create_doc_indices` / `create_bow` / `split_bow`
(`preprocessing.py` lines 171-314) restricted to one document.  The scipy
`coo_matrix(…).tocsr()` sums its duplicate `1` entries and canonicalises each
row to ascending column indices, so a document's row holds the ascending
distinct token ids occurring in it, paired with their multiplicities.  (For a
token id outside `[0, V)` scipy would raise instead; the development proves
that every id produced by `splitStage` is below `V`, so that branch is
unreachable and is not modelled.) -/
def bowRow (vocabSize : ℕ) (doc : List ℕ) : List ℕ × List ℕ :=
  let toks := (List.range vocabSize).filter (fun v => decide (0 < doc.count v))
  (toks, toks.map (fun v => doc.count v))

/-- The five token/count artifacts written by `preprocessing.py`
lines 284-314, one `bowRow` per document, with `V = len(vocab)` as passed at
lines 238-242. -/
structure PrepResult where
  split : SplitOut
  bowTr : List (List ℕ × List ℕ)
  bowTs : List (List ℕ × List ℕ)
  bowTsH1 : List (List ℕ × List ℕ)
  bowTsH2 : List (List ℕ × List ℕ)
  bowVa : List (List ℕ × List ℕ)
deriving DecidableEq, Repr

def buildArtifacts (r : SplitOut) : PrepResult :=
  let V := r.vocab.length
  ⟨r, r.docsTr.map (bowRow V), r.docsTs.map (bowRow V),
   r.docsTsH1.map (bowRow V), r.docsTsH2.map (bowRow V),
   r.docsVa.map (bowRow V)⟩

/-- The files written by a successful `preprocessing` run, in source order
(lines 165, 206-216, 248, 272-274, 285-314). -/
def outputFiles : List String :=
  ["info.json", "text_tr.txt", "text_ts.txt", "text_va.txt", "vocab.pkl",
   "bow_tr_timestamps.mat", "bow_ts_timestamps.mat", "bow_va_timestamps.mat",
   "bow_tr_tokens.mat", "bow_tr_counts.mat",
   "bow_ts_tokens.mat", "bow_ts_counts.mat",
   "bow_ts_h1_tokens.mat", "bow_ts_h1_counts.mat",
   "bow_ts_h2_tokens.mat", "bow_ts_h2_counts.mat",
   "bow_va_tokens.mat", "bow_va_counts.mat"]

/-- `preprocessing` of `preprocessing.py`: the first component lists the
file-system effects performed, in order (`"mkdir"` for the `os.makedirs` of
line 32, then the files written).  If the output folder already exists the
function raises `ValueError` at line 34, before reading the documents or
touching the file system.  Failures after the folder creation can only arise
in `splitStage` (lines 82-108), which runs entirely before the first file is
written at line 165; the remaining steps (writes, timestamp and bow
serialization) always succeed. -/
def preprocessing (a : PrepArgs) : List String × Except PyErr PrepResult :=
  if a.folderExists then ([], .error .valueError)
  else
    match splitStage a with
    | .error e => (["mkdir"], .error e)
    | .ok r => ("mkdir" :: outputFiles, .ok (buildArtifacts r))

/-- A small well-formed input on which `preprocessing` succeeds with a
non-empty test split; used by the witnesses. -/
def prepArgsOkC : PrepArgs :=
  { folderExists := false
    docs := [[0, 1], [1, 2], [0, 1, 0], [1]]
    keep := fun _ => true
    dataSplit := [mkRat 1 2, mkRat 1 4, mkRat 1 4]
    idxPermute := [0, 1, 2, 3] }

/-- The result of `preprocessing` on `prepArgsOkC`. -/
def prepResC : PrepResult :=
  match (preprocessing prepArgsOkC).2 with
  | .ok r => r
  | .error _ => buildArtifacts (mkSplitOut [] [] [] [])

/-- A malformed `data_split`: a negative first proportion, with the three
entries still summing to 1. -/
def prepArgsNegSplit : PrepArgs :=
  { folderExists := false
    docs := [[0], [0], [0], [0]]
    keep := fun _ => true
    dataSplit := [mkRat (-1) 4, mkRat 1 2, mkRat 3 4]
    idxPermute := [0, 1, 2, 3] }

/-- A malformed `data_split` whose proportions sum to 2. -/
def prepArgsBigSplit : PrepArgs :=
  { folderExists := false
    docs := [[0], [0], [0], [0]]
    keep := fun _ => true
    dataSplit := [2, 0, 0]
    idxPermute := [0, 1, 2, 3] }

/-- Arguments whose output folder already exists. -/
def prepArgsExisting : PrepArgs :=
  { folderExists := true
    docs := [[0]]
    keep := fun _ => true
    dataSplit := [1, 0, 0]
    idxPermute := [0] }

/-- Whether an embedded Python computation returned normally. -/
def isOkE : Except PyErr α → Bool
  | .ok _ => true
  | .error _ => false

/-- Well-formedness of one saved tokens/counts row with respect to its
document, as the claims state it: the two lists have equal length, every
token id is below the vocabulary size, and every count is the (positive)
number of occurrences of its token id in the document. -/
def goodBow (vocabSize : ℕ) (doc : List ℕ) (row : List ℕ × List ℕ) : Prop :=
  row.1.length = row.2.length ∧
  (∀ t ∈ row.1, t < vocabSize) ∧
  ∀ i (h1 : i < row.1.length) (h2 : i < row.2.length),
    row.2.get ⟨i, h2⟩ = doc.count (row.1.get ⟨i, h1⟩) ∧
    0 < row.2.get ⟨i, h2⟩

/-- The best-seen validation perplexity is a plain value bounded by the
`1e9` sentinel of `main_ETM.py` line 134. -/
def bestBounded (s : SelState) : Prop :=
  ∃ b : ℚ, s.bestValPpl = PyFloat.val b ∧ b ≤ 10 ^ 9

/-! ### Helper lemmas -/

theorem ratDiv_eq_div (a b : ℚ) : ratDiv a b = a / b := by
  have hae : a * (a.den : ℚ) = a.num := by
    nth_rewrite 1 [← Rat.num_div_den a]
    exact div_mul_cancel₀ ((a.num : ℤ) : ℚ)
      (show ((a.den : ℚ)) ≠ 0 from Nat.cast_ne_zero.mpr a.den_nz)
  have hbe : b * (b.den : ℚ) = b.num := by
    nth_rewrite 1 [← Rat.num_div_den b]
    exact div_mul_cancel₀ ((b.num : ℤ) : ℚ)
      (show ((b.den : ℚ)) ≠ 0 from Nat.cast_ne_zero.mpr b.den_nz)
  have had : ((a.den : ℚ)) ≠ 0 := Nat.cast_ne_zero.mpr a.den_nz
  unfold ratDiv
  by_cases hb : 0 ≤ b.num
  · rw [if_pos hb]
    rcases eq_or_lt_of_le hb with heq | hpos
    · have hb0 : b = 0 := by
        rw [← Rat.num_eq_zero]
        exact heq.symm
      subst hb0
      simp
    · have hbn : ((b.num : ℚ)) ≠ 0 := Int.cast_ne_zero.mpr (ne_of_gt hpos)
      have hbq : b ≠ 0 := by
        intro hc
        rw [hc] at hpos
        simp at hpos
      rw [Rat.mkRat_eq_div]
      have h1 : ((b.num.toNat : ℕ) : ℚ) = (b.num : ℚ) := by
        exact_mod_cast congrArg (fun z : ℤ => (z : ℚ)) (Int.toNat_of_nonneg hb)
      have hcast : (((a.den * b.num.toNat : ℕ)) : ℚ) = (a.den : ℚ) * (b.num : ℚ) := by
        push_cast [h1]
        ring
      rw [hcast]
      rw [div_eq_div_iff (mul_ne_zero had hbn) hbq]
      push_cast
      linear_combination ((a.num : ℚ)) * hbe - ((b.num : ℚ)) * hae
  · rw [if_neg hb]
    have hneg : b.num < 0 := lt_of_not_le hb
    have hbn : ((b.num : ℚ)) ≠ 0 := Int.cast_ne_zero.mpr (ne_of_lt hneg)
    have hbq : b ≠ 0 := by
      intro hc
      rw [hc] at hneg
      simp at hneg
    rw [Rat.mkRat_eq_div]
    have h1 : (((-b.num).toNat : ℕ) : ℚ) = -(b.num : ℚ) := by
      have h2 : ((-b.num).toNat : ℤ) = -b.num :=
        Int.toNat_of_nonneg (by omega : (0:ℤ) ≤ -b.num)
      exact_mod_cast congrArg (fun z : ℤ => (z : ℚ)) h2
    have hcast : (((a.den * (-b.num).toNat : ℕ)) : ℚ) = (a.den : ℚ) * (-(b.num : ℚ)) := by
      push_cast [h1]
      ring
    rw [hcast]
    have hden : (a.den : ℚ) * (-(b.num : ℚ)) ≠ 0 :=
      mul_ne_zero had (neg_ne_zero.mpr hbn)
    rw [div_eq_div_iff hden hbq]
    push_cast
    linear_combination (-(a.num : ℚ)) * hbe + ((b.num : ℚ)) * hae

theorem floorMulNat_eq (q : ℚ) (n : ℕ) : floorMulNat q n = ⌊q * (n : ℚ)⌋ := by
  unfold floorMulNat
  have h : q * (n : ℚ) = (((q.num * (n : ℤ)) : ℤ) : ℚ) / ((q.den : ℕ) : ℚ) := by
    conv_lhs => rw [← Rat.num_div_den q]
    push_cast
    ring
  rw [h, Rat.floor_intCast_div_natCast]

theorem halfThreshold_eq (n : ℕ) : halfThreshold n = (n : ℚ) / 2 - 1 := by
  unfold halfThreshold
  rw [Rat.mkRat_eq_div]
  push_cast
  ring
theorem filterIdx_congr {α : Type} (q q' : ℕ → Bool) (hq : ∀ j, q j = q' j) :
    ∀ (i : ℕ) (l : List α), filterIdx q i l = filterIdx q' i l := by
  intro i l
  induction l generalizing i with
  | nil => rfl
  | cons a l ih => simp only [filterIdx, hq, ih]

theorem filterIdx_lt_of_ge {α : Type} (k : ℕ) :
    ∀ (i : ℕ) (l : List α), k ≤ i →
      filterIdx (fun j => decide (j < k)) i l = [] := by
  intro i l
  induction l generalizing i with
  | nil => intro _; rfl
  | cons a l ih =>
    intro hki
    have hd : decide (i < k) = false := decide_eq_false (by omega)
    simp only [filterIdx, hd, Bool.false_eq_true, if_false]
    exact ih (i + 1) (by omega)

theorem filterIdx_lt_eq_take {α : Type} (k : ℕ) :
    ∀ (i : ℕ) (l : List α),
      filterIdx (fun j => decide (j < k)) i l = l.take (k - i) := by
  intro i l
  induction l generalizing i with
  | nil => simp [filterIdx]
  | cons a l ih =>
    by_cases h : i < k
    · have hd : decide (i < k) = true := decide_eq_true h
      have hk : k - i = (k - (i + 1)) + 1 := by omega
      simp only [filterIdx, hd, if_true, hk, List.take_succ_cons, ih (i + 1)]
    · have hd : decide (i < k) = false := decide_eq_false h
      have hk : k - i = 0 := by omega
      simp only [filterIdx, hd, Bool.false_eq_true, if_false, hk, List.take_zero]
      exact filterIdx_lt_of_ge k (i + 1) l (by omega)

theorem filterIdx_ge_of_ge {α : Type} (k : ℕ) :
    ∀ (i : ℕ) (l : List α), k ≤ i →
      filterIdx (fun j => !decide (j < k)) i l = l := by
  intro i l
  induction l generalizing i with
  | nil => intro _; rfl
  | cons a l ih =>
    intro hki
    have hd : decide (i < k) = false := decide_eq_false (by omega)
    simp only [filterIdx, hd, Bool.not_false, if_true]
    rw [ih (i + 1) (by omega)]

theorem filterIdx_ge_eq_drop {α : Type} (k : ℕ) :
    ∀ (i : ℕ) (l : List α),
      filterIdx (fun j => !decide (j < k)) i l = l.drop (k - i) := by
  intro i l
  induction l generalizing i with
  | nil => simp [filterIdx]
  | cons a l ih =>
    by_cases h : i < k
    · have hd : decide (i < k) = true := decide_eq_true h
      have hk : k - i = (k - (i + 1)) + 1 := by omega
      simp only [filterIdx, hd, Bool.not_true, Bool.false_eq_true, if_false, hk,
        List.drop_succ_cons, ih (i + 1)]
    · have hd : decide (i < k) = false := decide_eq_false h
      have hk : k - i = 0 := by omega
      simp only [filterIdx, hd, Bool.not_false, if_true, hk, List.drop_zero]
      rw [filterIdx_ge_of_ge k (i + 1) l (by omega)]

theorem half_cond_iff (n i : ℕ) :
    ((i : ℚ) ≤ (n : ℚ) / 2 - 1) ↔ i < n / 2 := by
  have h2 : ((i : ℚ) + 1 ≤ (n : ℚ) / 2) ↔ (((i : ℚ) + 1) * 2 ≤ (n : ℚ)) :=
    le_div_iff₀ (by norm_num)
  have h3 : (((i : ℚ) + 1) * 2 ≤ (n : ℚ)) ↔ ((i + 1) * 2 ≤ n) := by
    constructor <;> intro hx <;> exact_mod_cast hx
  have h4 : ((i + 1) * 2 ≤ n) ↔ (i + 1 ≤ n / 2) :=
    (Nat.le_div_iff_mul_le (by norm_num)).symm
  constructor
  · intro h
    have hq : (i : ℚ) + 1 ≤ (n : ℚ) / 2 := by linarith
    have := h4.1 (h3.1 (h2.1 hq))
    omega
  · intro h
    have hq := h2.2 (h3.2 (h4.2 (by omega)))
    linarith

theorem halfThreshold_cond_iff (n i : ℕ) :
    ((i : ℚ) ≤ halfThreshold n) ↔ i < n / 2 := by
  rw [halfThreshold_eq]
  exact half_cond_iff n i

theorem firstHalf_eq_take (doc : List ℕ) :
    firstHalf doc = doc.take (doc.length / 2) := by
  unfold firstHalf
  rw [filterIdx_congr _ (fun j => decide (j < doc.length / 2))
      (fun j => by
        by_cases h : j < doc.length / 2
        · simp [decide_eq_true ((halfThreshold_cond_iff doc.length j).2 h), decide_eq_true h]
        · simp [decide_eq_false (fun hc => h ((halfThreshold_cond_iff doc.length j).1 hc)),
            decide_eq_false h])]
  simpa using filterIdx_lt_eq_take (doc.length / 2) 0 doc

theorem secondHalf_eq_drop (doc : List ℕ) :
    secondHalf doc = doc.drop (doc.length / 2) := by
  unfold secondHalf
  rw [filterIdx_congr _ (fun j => !decide (j < doc.length / 2))
      (fun j => by
        by_cases h : j < doc.length / 2
        · have h1 : ¬ (halfThreshold doc.length < (j : ℚ)) :=
            not_lt.2 ((halfThreshold_cond_iff doc.length j).2 h)
          simp [decide_eq_false h1, decide_eq_true h]
        · have h1 : halfThreshold doc.length < (j : ℚ) :=
            lt_of_not_le (fun hc => h ((halfThreshold_cond_iff doc.length j).1 hc))
          simp [decide_eq_true h1, decide_eq_false h])]
  simpa using filterIdx_ge_eq_drop (doc.length / 2) 0 doc

theorem firstHalf_append_secondHalf (doc : List ℕ) :
    firstHalf doc ++ secondHalf doc = doc := by
  rw [firstHalf_eq_take, secondHalf_eq_drop, List.take_append_drop]

theorem mapExcept_ok_mem {α β : Type} (f : α → Except PyErr β) :
    ∀ (l : List α) (out : List β), mapExcept f l = .ok out →
      ∀ y ∈ out, ∃ x ∈ l, f x = .ok y := by
  intro l
  induction l with
  | nil =>
    intro out h y hy
    simp only [mapExcept] at h
    cases h
    simp at hy
  | cons x xs ih =>
    intro out h y hy
    simp only [mapExcept] at h
    cases hfx : f x with
    | error e => rw [hfx] at h; cases h
    | ok y0 =>
      rw [hfx] at h
      cases hrec : mapExcept f xs with
      | error e => rw [hrec] at h; cases h
      | ok ys =>
        rw [hrec] at h
        cases h
        rcases List.mem_cons.1 hy with h1 | h1
        · exact ⟨x, List.mem_cons_self x xs, by rw [hfx, h1]⟩
        · rcases ih ys hrec y h1 with ⟨x2, hx2, hfx2⟩
          exact ⟨x2, List.mem_cons_of_mem x hx2, hfx2⟩

theorem fetchTokenized_ok_shape (a : PrepArgs) (vocab : List ℕ) (i : ℤ)
    (y : List ℕ) (h : fetchTokenized a vocab i = .ok y) :
    ∃ d, y = tokenizeDoc vocab d := by
  unfold fetchTokenized at h
  cases h1 : pyGet a.idxPermute i with
  | error e => rw [h1] at h; cases h
  | ok p =>
    rw [h1] at h
    dsimp only at h
    cases h2 : pyGet a.docs (p : ℤ) with
    | error e => rw [h2] at h; cases h
    | ok d =>
      rw [h2] at h
      cases h
      exact ⟨d, rfl⟩

theorem tokenizeDoc_lt (vocab : List ℕ) (d : List ℕ) :
    ∀ t ∈ tokenizeDoc vocab d, t < vocab.length := by
  intro t ht
  unfold tokenizeDoc at ht
  rcases List.mem_map.1 ht with ⟨w, hw, rfl⟩
  have hmem : w ∈ vocab := by
    have := List.of_mem_filter hw
    simpa using this
  exact List.indexOf_lt_length.2 hmem

theorem pyMin_of_ne_nil (l : List PyFloat) (h : l ≠ []) :
    ∃ m, pyMin l = some m := by
  cases l with
  | nil => exact absurd rfl h
  | cons a t => exact ⟨_, rfl⟩

theorem pySliceToNeg_of_pos {α : Type} (l : List α) (n : ℕ) (h : n ≠ 0) :
    pySliceToNeg l n = l.take (l.length - n) := by
  simp [pySliceToNeg, h]

/-- Full inversion of a successful `selectStep`: either the checkpoint-save
branch was taken, or the epoch left the selection fields unchanged and the
learning rate either stayed or was divided while above the floor. -/
theorem selectStep_ok_cases (annealLr : Bool) (nonmono : ℕ) (lrFactor : ℚ)
    (epoch : ℕ) (valPpl : PyFloat) (s s2 : SelState) (w : Bool)
    (h : selectStep annealLr nonmono lrFactor epoch valPpl s = .ok (s2, w)) :
    (w = true ∧ pyLt valPpl s.bestValPpl = true ∧
      s2 = { s with
              bestEpoch := epoch
              bestValPpl := valPpl
              ckptExists := true
              saves := s.saves + 1
              allValPpls := s.allValPpls ++ [valPpl] }) ∨
    (w = false ∧ pyLt valPpl s.bestValPpl = false ∧
      s2.bestEpoch = s.bestEpoch ∧ s2.bestValPpl = s.bestValPpl ∧
      s2.ckptExists = s.ckptExists ∧ s2.saves = s.saves ∧
      s2.allValPpls = s.allValPpls ++ [valPpl] ∧
      (s2.lr = s.lr ∨ (s2.lr = s.lr / lrFactor ∧ lrFloor < s.lr))) := by
  unfold selectStep at h
  by_cases h1 : pyLt valPpl s.bestValPpl
  · rw [if_pos h1] at h
    cases h
    exact Or.inl ⟨rfl, h1, rfl⟩
  · rw [if_neg h1] at h
    have h1f : pyLt valPpl s.bestValPpl = false := by
      revert h1; cases pyLt valPpl s.bestValPpl <;> simp
    right
    by_cases ha : annealLr = true
    · by_cases hlen : nonmono < s.allValPpls.length
      · cases hm : pyMin (pySliceToNeg s.allValPpls nonmono) with
        | none =>
          rw [ha, if_pos rfl, if_pos hlen, hm] at h
          dsimp only at h
          cases h
        | some m =>
          rw [ha, if_pos rfl, if_pos hlen, hm] at h
          dsimp only at h
          cases hb : (pyGt valPpl m && decide (lrFloor < s.lr)) with
          | false =>
            rw [hb] at h
            injection h with h2
            rw [Prod.mk.injEq] at h2
            obtain ⟨rfl, rfl⟩ := h2
            exact ⟨rfl, h1f, rfl, rfl, rfl, rfl, rfl, Or.inl rfl⟩
          | true =>
            rw [hb] at h
            by_cases hf0 : lrFactor = 0
            · rw [if_pos hf0] at h; cases h
            · rw [if_neg hf0] at h
              injection h with h2
              rw [Prod.mk.injEq] at h2
              obtain ⟨rfl, rfl⟩ := h2
              have hb2 := (Bool.and_eq_true _ _) ▸ hb
              have hfl : lrFloor < s.lr := of_decide_eq_true hb2.2
              exact ⟨rfl, h1f, rfl, rfl, rfl, rfl, rfl,
                Or.inr ⟨ratDiv_eq_div _ _, hfl⟩⟩
      · rw [ha, if_pos rfl, if_neg hlen] at h
        dsimp only at h
        injection h with h2
        rw [Prod.mk.injEq] at h2
        obtain ⟨rfl, rfl⟩ := h2
        exact ⟨rfl, h1f, rfl, rfl, rfl, rfl, rfl, Or.inl rfl⟩
    · have ha2 : annealLr = false := by
        revert ha; cases annealLr <;> simp
      rw [ha2] at h
      simp only [Bool.false_eq_true, if_false] at h
      injection h with h2
      rw [Prod.mk.injEq] at h2
      obtain ⟨rfl, rfl⟩ := h2
      exact ⟨rfl, h1f, rfl, rfl, rfl, rfl, rfl, Or.inl rfl⟩

theorem splitStage_ok_inv (a : PrepArgs) (r : SplitOut)
    (h : splitStage a = .ok r) :
    ∃ (vocab : List ℕ) (dtr dts dva : List (List ℕ)),
      r = mkSplitOut vocab dtr dts dva ∧
      (∀ d ∈ dtr, ∃ d0, d = tokenizeDoc vocab d0) ∧
      (∀ d ∈ dts, ∃ d0, d = tokenizeDoc vocab d0) ∧
      (∀ d ∈ dva, ∃ d0, d = tokenizeDoc vocab d0) := by
  unfold splitStage at h
  simp only [Except.bind] at h
  split at h
  · cases h
  · rename_i ds0 hds0
    split at h
    · cases h
    · rename_i ds1 hds1
      split at h
      · cases h
      · rename_i kept hkept
        split at h
        · cases h
        · rename_i dtr hdtr
          split at h
          · cases h
          · rename_i dts hdts
            split at h
            · cases h
            · rename_i dva hdva
              cases h
              refine ⟨kept.flatten.dedup, dtr, dts, dva, rfl, ?_, ?_, ?_⟩
              · intro d hd
                rcases mapExcept_ok_mem _ _ _ hdtr d hd with ⟨idx, _, hidx⟩
                exact fetchTokenized_ok_shape a _ _ d hidx
              · intro d hd
                rcases mapExcept_ok_mem _ _ _ hdts d hd with ⟨idx, _, hidx⟩
                exact fetchTokenized_ok_shape a _ _ d hidx
              · intro d hd
                rcases mapExcept_ok_mem _ _ _ hdva d hd with ⟨idx, _, hidx⟩
                exact fetchTokenized_ok_shape a _ _ d hidx

theorem preprocessing_ok_inv (a : PrepArgs) (eff : List String)
    (res : PrepResult) (h : preprocessing a = (eff, .ok res)) :
    ∃ r, splitStage a = .ok r ∧ res = buildArtifacts r := by
  unfold preprocessing at h
  by_cases hf : a.folderExists = true
  · rw [if_pos hf] at h
    rw [Prod.mk.injEq] at h
    cases h.2
  · rw [if_neg hf] at h
    cases hs : splitStage a with
    | error e =>
      rw [hs] at h
      dsimp only at h
      rw [Prod.mk.injEq] at h
      cases h.2
    | ok r =>
      rw [hs] at h
      dsimp only at h
      rw [Prod.mk.injEq] at h
      obtain ⟨-, h2⟩ := h
      injection h2 with h3
      exact ⟨r, rfl, h3.symm⟩

theorem mem_docsTr_shape (vocab : List ℕ) (dtr0 dts0 dva0 : List (List ℕ))
    (d : List ℕ) (hd : d ∈ (mkSplitOut vocab dtr0 dts0 dva0).docsTr) :
    d ∈ dtr0 ∧ d ≠ [] := by
  unfold mkSplitOut removeEmptyDocs at hd
  dsimp only at hd
  rcases List.mem_filter.1 hd with ⟨h1, h2⟩
  exact ⟨h1, by simpa using h2⟩

theorem mem_docsVa_shape (vocab : List ℕ) (dtr0 dts0 dva0 : List (List ℕ))
    (d : List ℕ) (hd : d ∈ (mkSplitOut vocab dtr0 dts0 dva0).docsVa) :
    d ∈ dva0 ∧ d ≠ [] := by
  unfold mkSplitOut removeEmptyDocs at hd
  dsimp only at hd
  rcases List.mem_filter.1 hd with ⟨h1, h2⟩
  exact ⟨h1, by simpa using h2⟩

theorem mem_docsTs_shape (vocab : List ℕ) (dtr0 dts0 dva0 : List (List ℕ))
    (d : List ℕ) (hd : d ∈ (mkSplitOut vocab dtr0 dts0 dva0).docsTs) :
    d ∈ dts0 ∧ 1 < d.length := by
  unfold mkSplitOut removeByThreshold removeEmptyDocs at hd
  dsimp only at hd
  rcases List.mem_filter.1 hd with ⟨h1, h2⟩
  rcases List.mem_filter.1 h1 with ⟨h3, -⟩
  exact ⟨h3, by simpa using h2⟩

theorem mkSplitOut_h1 (vocab : List ℕ) (dtr0 dts0 dva0 : List (List ℕ)) :
    (mkSplitOut vocab dtr0 dts0 dva0).docsTsH1 =
      (mkSplitOut vocab dtr0 dts0 dva0).docsTs.map firstHalf := rfl

theorem mkSplitOut_h2 (vocab : List ℕ) (dtr0 dts0 dva0 : List (List ℕ)) :
    (mkSplitOut vocab dtr0 dts0 dva0).docsTsH2 =
      (mkSplitOut vocab dtr0 dts0 dva0).docsTs.map secondHalf := rfl

theorem goodBow_bowRow (vocabSize : ℕ) (doc : List ℕ) :
    goodBow vocabSize doc (bowRow vocabSize doc) := by
  unfold goodBow bowRow
  dsimp only
  refine ⟨(List.length_map _ _).symm, ?_, ?_⟩
  · intro t ht
    exact List.mem_range.1 (List.mem_of_mem_filter ht)
  · intro i h1 h2
    constructor
    · simp [List.get_eq_getElem, List.getElem_map]
    · have hmem := List.get_mem _ _ h1
      have := List.of_mem_filter hmem
      simp only [List.get_eq_getElem, List.getElem_map]
      exact of_decide_eq_true this

/-- C9: if the output folder derived from `data_path` already exists,
`preprocessing` raises `ValueError` before reading the documents or writing
any file: for every input with the folder present, the result is the
`ValueError` with an empty effect list, independently of the documents. -/
theorem folder_exists_valueerror (a : PrepArgs) (h : a.folderExists = true) :
    preprocessing a = ([], .error .valueError) := by
  unfold preprocessing
  rw [if_pos h]

theorem folder_exists_valueerror_witness :
    preprocessing prepArgsExisting = ([], .error .valueError) :=
  folder_exists_valueerror prepArgsExisting rfl

/-- C4: for every successful preprocessing run, the first-half and
second-half test sets have exactly as many documents as the test set, and
the pointwise concatenation of the halves gives back the test documents. -/
theorem test_halves_partition (a : PrepArgs) (eff : List String)
    (res : PrepResult) (h : preprocessing a = (eff, .ok res)) :
    res.split.docsTsH1.length = res.split.docsTs.length ∧
    res.split.docsTsH2.length = res.split.docsTs.length ∧
    List.zipWith (· ++ ·) res.split.docsTsH1 res.split.docsTsH2 =
      res.split.docsTs := by
  rcases preprocessing_ok_inv a eff res h with ⟨r, hs, rfl⟩
  rcases splitStage_ok_inv a r hs with ⟨vocab, dtr, dts, dva, rfl, -, -, -⟩
  have hsp : (buildArtifacts (mkSplitOut vocab dtr dts dva)).split =
      mkSplitOut vocab dtr dts dva := rfl
  rw [hsp, mkSplitOut_h1, mkSplitOut_h2]
  refine ⟨List.length_map _ _, List.length_map _ _, ?_⟩
  rw [List.zipWith_map, List.zipWith_same]
  have hcongr : ∀ d ∈ (mkSplitOut vocab dtr dts dva).docsTs,
      firstHalf d ++ secondHalf d = id d :=
    fun d _ => firstHalf_append_secondHalf d
  rw [List.map_congr_left hcongr, List.map_id]

theorem test_halves_partition_witness :
    prepResC.split.docsTsH1.length = prepResC.split.docsTs.length ∧
    prepResC.split.docsTsH2.length = prepResC.split.docsTs.length ∧
    List.zipWith (· ++ ·) prepResC.split.docsTsH1 prepResC.split.docsTsH2 =
      prepResC.split.docsTs :=
  test_halves_partition prepArgsOkC ("mkdir" :: outputFiles) prepResC (by rfl)

/-- C5: after a successful preprocessing run, every train and validation
document is non-empty, every retained test document has more than one token,
and both halves of every test document are non-empty. -/
theorem saved_docs_nonempty (a : PrepArgs) (eff : List String)
    (res : PrepResult) (h : preprocessing a = (eff, .ok res)) :
    (∀ d ∈ res.split.docsTr, d ≠ []) ∧
    (∀ d ∈ res.split.docsVa, d ≠ []) ∧
    (∀ d ∈ res.split.docsTs, 1 < d.length) ∧
    (∀ d ∈ res.split.docsTsH1, d ≠ []) ∧
    (∀ d ∈ res.split.docsTsH2, d ≠ []) := by
  rcases preprocessing_ok_inv a eff res h with ⟨r, hs, rfl⟩
  rcases splitStage_ok_inv a r hs with ⟨vocab, dtr, dts, dva, rfl, -, -, -⟩
  have hsp : (buildArtifacts (mkSplitOut vocab dtr dts dva)).split =
      mkSplitOut vocab dtr dts dva := rfl
  simp only [hsp]
  refine ⟨?_, ?_, ?_, ?_, ?_⟩
  · exact fun d hd => (mem_docsTr_shape _ _ _ _ d hd).2
  · exact fun d hd => (mem_docsVa_shape _ _ _ _ d hd).2
  · exact fun d hd => (mem_docsTs_shape _ _ _ _ d hd).2
  · intro d hd
    rw [mkSplitOut_h1] at hd
    rcases List.mem_map.1 hd with ⟨doc, hdoc, rfl⟩
    have hlen := (mem_docsTs_shape _ _ _ _ doc hdoc).2
    rw [firstHalf_eq_take]
    intro hnil
    have h0 : (doc.take (doc.length / 2)).length = 0 := by rw [hnil]; rfl
    rw [List.length_take] at h0
    omega
  · intro d hd
    rw [mkSplitOut_h2] at hd
    rcases List.mem_map.1 hd with ⟨doc, hdoc, rfl⟩
    have hlen := (mem_docsTs_shape _ _ _ _ doc hdoc).2
    rw [secondHalf_eq_drop]
    intro hnil
    have h0 : (doc.drop (doc.length / 2)).length = 0 := by rw [hnil]; rfl
    rw [List.length_drop] at h0
    omega

theorem saved_docs_nonempty_witness :
    (∀ d ∈ prepResC.split.docsTr, d ≠ []) ∧
    (∀ d ∈ prepResC.split.docsVa, d ≠ []) ∧
    (∀ d ∈ prepResC.split.docsTs, 1 < d.length) ∧
    (∀ d ∈ prepResC.split.docsTsH1, d ≠ []) ∧
    (∀ d ∈ prepResC.split.docsTsH2, d ≠ []) :=
  saved_docs_nonempty prepArgsOkC ("mkdir" :: outputFiles) prepResC (by rfl)

theorem forall₂_goodBow_map (V : ℕ) (l : List (List ℕ)) :
    List.Forall₂ (goodBow V) l (l.map (bowRow V)) := by
  rw [List.forall₂_map_right_iff]
  exact List.forall₂_same.2 (fun d _ => goodBow_bowRow V d)

/-- C6: in every saved tokens/counts artifact the two lists of a document
have equal length, every token id is below the final vocabulary size, and
every count is the positive multiplicity of its token in the document;
moreover every token id stored in any split is below the vocabulary size. -/
theorem bow_artifacts_wellformed (a : PrepArgs) (eff : List String)
    (res : PrepResult) (h : preprocessing a = (eff, .ok res)) :
    (∀ d ∈ res.split.docsTr ++ res.split.docsTs ++ res.split.docsTsH1 ++
        res.split.docsTsH2 ++ res.split.docsVa,
      ∀ t ∈ d, t < res.split.vocab.length) ∧
    List.Forall₂ (goodBow res.split.vocab.length) res.split.docsTr res.bowTr ∧
    List.Forall₂ (goodBow res.split.vocab.length) res.split.docsTs res.bowTs ∧
    List.Forall₂ (goodBow res.split.vocab.length) res.split.docsTsH1 res.bowTsH1 ∧
    List.Forall₂ (goodBow res.split.vocab.length) res.split.docsTsH2 res.bowTsH2 ∧
    List.Forall₂ (goodBow res.split.vocab.length) res.split.docsVa res.bowVa := by
  rcases preprocessing_ok_inv a eff res h with ⟨r, hs, rfl⟩
  rcases splitStage_ok_inv a r hs with ⟨vocab, dtr, dts, dva, rfl, htr, hts, hva⟩
  have hsp : (buildArtifacts (mkSplitOut vocab dtr dts dva)).split =
      mkSplitOut vocab dtr dts dva := rfl
  simp only [hsp]
  constructor
  · intro d hd t ht
    have hbound : ∀ d2 ∈ (mkSplitOut vocab dtr dts dva).docsTs,
        ∀ t2 ∈ d2, t2 < vocab.length := by
      intro d2 hd2 t2 ht2
      rcases hts d2 (mem_docsTs_shape _ _ _ _ d2 hd2).1 with ⟨d0, rfl⟩
      exact tokenizeDoc_lt vocab d0 t2 ht2
    simp only [List.mem_append] at hd
    rcases hd with ((((hd | hd) | hd) | hd) | hd)
    · rcases htr d (mem_docsTr_shape _ _ _ _ d hd).1 with ⟨d0, rfl⟩
      exact tokenizeDoc_lt vocab d0 t ht
    · exact hbound d hd t ht
    · rw [mkSplitOut_h1] at hd
      rcases List.mem_map.1 hd with ⟨doc, hdoc, rfl⟩
      rw [firstHalf_eq_take] at ht
      exact hbound doc hdoc t (List.take_subset _ _ ht)
    · rw [mkSplitOut_h2] at hd
      rcases List.mem_map.1 hd with ⟨doc, hdoc, rfl⟩
      rw [secondHalf_eq_drop] at ht
      exact hbound doc hdoc t (List.drop_subset _ _ ht)
    · rcases hva d (mem_docsVa_shape _ _ _ _ d hd).1 with ⟨d0, rfl⟩
      exact tokenizeDoc_lt vocab d0 t ht
  · exact ⟨forall₂_goodBow_map _ _, forall₂_goodBow_map _ _,
      forall₂_goodBow_map _ _, forall₂_goodBow_map _ _, forall₂_goodBow_map _ _⟩

theorem bow_artifacts_wellformed_witness :
    (∀ d ∈ prepResC.split.docsTr ++ prepResC.split.docsTs ++
        prepResC.split.docsTsH1 ++ prepResC.split.docsTsH2 ++
        prepResC.split.docsVa,
      ∀ t ∈ d, t < prepResC.split.vocab.length) ∧
    List.Forall₂ (goodBow prepResC.split.vocab.length) prepResC.split.docsTr prepResC.bowTr ∧
    List.Forall₂ (goodBow prepResC.split.vocab.length) prepResC.split.docsTs prepResC.bowTs ∧
    List.Forall₂ (goodBow prepResC.split.vocab.length) prepResC.split.docsTsH1 prepResC.bowTsH1 ∧
    List.Forall₂ (goodBow prepResC.split.vocab.length) prepResC.split.docsTsH2 prepResC.bowTsH2 ∧
    List.Forall₂ (goodBow prepResC.split.vocab.length) prepResC.split.docsVa prepResC.bowVa :=
  bow_artifacts_wellformed prepArgsOkC ("mkdir" :: outputFiles) prepResC (by rfl)

/-- C3, counterexample: a `data_split` with a negative entry (summing to 1)
is not rejected — `preprocessing` runs to completion, creates the folder and
writes every output file. -/
theorem data_split_unvalidated_cex :
    (preprocessing prepArgsNegSplit).1 = "mkdir" :: outputFiles ∧
    isOkE (preprocessing prepArgsNegSplit).2 = true := ⟨rfl, rfl⟩

/-- C3, amended: `preprocessing` performs no validation of `data_split`.
A malformed split with a negative entry completes normally and writes all
artifacts, while proportions summing to more than 1 raise an `IndexError`
only in the middle of the run, after the output folder has been created. -/
theorem data_split_unvalidated :
    isOkE (preprocessing prepArgsNegSplit).2 = true ∧
    (preprocessing prepArgsNegSplit).1 = "mkdir" :: outputFiles ∧
    preprocessing prepArgsBigSplit = (["mkdir"], .error .indexError) :=
  ⟨rfl, rfl, rfl⟩

/-- C8: every `model.evaluate` call issued by `main_ETM` passes the split
label `'val'` — one call per epoch plus the end-of-training call in train
mode, and the single call of eval mode. -/
theorem evaluate_labels_all_val (mode : String) (epochs : ℕ) :
    (mainETMEvalLabels mode epochs).all (fun l => l == "val") = true ∧
    (mainETMEvalLabels mode epochs).length =
      (if mode = "train" then epochs + 1 else 1) := by
  unfold mainETMEvalLabels
  by_cases h : mode = "train"
  · simp [h]
  · simp [h]

/-- C1: for `nonmono ≥ 1`, a nonzero `lr_factor`, and an epoch whose
validation perplexity does not improve on the best-seen value, the epoch
succeeds and the learning rate is divided by `lr_factor` exactly when the
spec's four conditions (`specAnnealConds`) hold; otherwise it is unchanged.
In both cases the perplexity is appended to the history and no checkpoint is
written. -/
theorem anneal_gate_iff (annealLr : Bool) (nonmono : ℕ) (lrFactor : ℚ)
    (epoch : ℕ) (valPpl : PyFloat) (s : SelState)
    (hn : 1 ≤ nonmono) (hf : lrFactor ≠ 0)
    (hni : pyLt valPpl s.bestValPpl = false) :
    selectStep annealLr nonmono lrFactor epoch valPpl s =
      .ok ({ s with
              lr := if specAnnealConds annealLr nonmono s.allValPpls valPpl s.lr = true
                    then ratDiv s.lr lrFactor else s.lr
              allValPpls := s.allValPpls ++ [valPpl] }, false) := by
  unfold selectStep
  simp only [hni, Bool.false_eq_true, if_false]
  by_cases ha : annealLr = true
  · subst ha
    by_cases hlen : nonmono < s.allValPpls.length
    · have hslice : pySliceToNeg s.allValPpls nonmono =
          s.allValPpls.take (s.allValPpls.length - nonmono) :=
        pySliceToNeg_of_pos _ _ (by omega)
      have hne : s.allValPpls.take (s.allValPpls.length - nonmono) ≠ [] := by
        intro hc
        have hc2 := congrArg List.length hc
        rw [List.length_take] at hc2
        simp at hc2
        omega
      rcases pyMin_of_ne_nil _ hne with ⟨m, hm⟩
      have hconds : specAnnealConds true nonmono s.allValPpls valPpl s.lr =
          (pyGt valPpl m && decide (lrFloor < s.lr)) := by
        unfold specAnnealConds
        rw [hm]
        have hd2 : decide (nonmono ≤ s.allValPpls.length) = true :=
          decide_eq_true (by omega)
        rw [hd2]
        simp [Option.any]
      rw [if_pos rfl, if_pos hlen, hslice, hm]
      dsimp only
      cases hb : (pyGt valPpl m && decide (lrFloor < s.lr)) with
      | false =>
        dsimp only
        rw [hconds, hb]
        simp
      | true =>
        dsimp only
        rw [if_neg hf, hconds, hb]
        simp
    · have hconds : specAnnealConds true nonmono s.allValPpls valPpl s.lr = false := by
        unfold specAnnealConds
        rcases lt_or_eq_of_le (not_lt.1 hlen) with hlt | heq
        · have hd2 : decide (nonmono ≤ s.allValPpls.length) = false :=
            decide_eq_false (by omega)
          rw [hd2]
          simp
        · have h0 : s.allValPpls.length - nonmono = 0 := by omega
          rw [h0]
          simp [pyMin, Option.any]
      rw [if_pos rfl, if_neg hlen]
      dsimp only
      rw [hconds]
      simp
  · have ha2 : annealLr = false := by
      revert ha
      cases annealLr <;> simp
    subst ha2
    have hconds : specAnnealConds false nonmono s.allValPpls valPpl s.lr = false := by
      unfold specAnnealConds
      simp
    simp only [Bool.false_eq_true, if_false]
    rw [hconds]
    simp

theorem anneal_gate_iff_witness :
    selectStep true 2 4 5 (.val 5)
        ⟨0, .val 1, [.val 4, .val 7, .val 8], 1, true, 1⟩ =
      .ok (⟨0, .val 1, [.val 4, .val 7, .val 8, .val 5], ratDiv 1 4, true, 1⟩,
        false) := by
  have h := anneal_gate_iff true 2 4 5 (.val 5)
    ⟨0, .val 1, [.val 4, .val 7, .val 8], 1, true, 1⟩
    (by omega) (by norm_num) rfl
  exact h

/-- C1, counterexample: with `nonmono = 0`, enabled annealing, a non-empty
history, a perplexity above the history minimum and a learning rate above
the floor — i.e. all four conditions of the claim — the code raises
`ValueError` (Python's `min(all_val_ppls[:-0])` is `min([])`) instead of
dividing the learning rate. -/
theorem anneal_gate_nonmono_zero_cex :
    selectStep true 0 4 1 (.val 3) ⟨0, .val 1, [.val 2], 1, true, 1⟩ =
      .error .valueError ∧
    specAnnealConds true 0 [.val 2] (.val 3) 1 = true := ⟨rfl, rfl⟩

theorem lrFloor_pos : (0 : ℚ) < lrFloor := by
  unfold lrFloor
  rw [Rat.mkRat_eq_div]
  norm_num

/-- C2: a successful epoch writes the checkpoint iff the validation
perplexity strictly improves on the best-seen value, in which case the best
epoch/value are updated and the save counter increments by exactly one;
otherwise the selection fields are untouched. -/
theorem checkpoint_save_iff (annealLr : Bool) (nonmono : ℕ) (lrFactor : ℚ)
    (epoch : ℕ) (valPpl : PyFloat) (s s2 : SelState) (w : Bool)
    (h : selectStep annealLr nonmono lrFactor epoch valPpl s = .ok (s2, w)) :
    (w = true ↔ pyLt valPpl s.bestValPpl = true) ∧
    (w = true → s2.bestEpoch = epoch ∧ s2.bestValPpl = valPpl ∧
      s2.ckptExists = true ∧ s2.saves = s.saves + 1) ∧
    (w = false → s2.bestEpoch = s.bestEpoch ∧ s2.bestValPpl = s.bestValPpl ∧
      s2.ckptExists = s.ckptExists ∧ s2.saves = s.saves) ∧
    s2.saves ≤ s.saves + 1 := by
  rcases selectStep_ok_cases _ _ _ _ _ _ _ _ h with
    ⟨rfl, hlt, rfl⟩ | ⟨rfl, hlt, h1, h2, h3, h4, h5, h6⟩
  · exact ⟨by simp [hlt], fun _ => ⟨rfl, rfl, rfl, rfl⟩,
      fun hw => absurd hw (by simp), Nat.le_refl _⟩
  · exact ⟨by simp [hlt], fun hw => absurd hw (by simp),
      fun _ => ⟨h1, h2, h3, h4⟩, by omega⟩

theorem checkpoint_save_iff_witness :
    ((true : Bool) = true ↔ pyLt (PyFloat.val 5) (PyFloat.val 1000000000) = true) :=
  (checkpoint_save_iff false 10 4 7 (PyFloat.val 5)
    ⟨0, .val 1000000000, [], 1, false, 0⟩
    ⟨7, .val 5, [.val 5], 1, true, 1⟩ true rfl).1

/-- C7 (amended): for `lr_factor ≥ 1`, across any successful run the
learning rate is non-increasing, and it only ever changes between epochs by
division by `lr_factor`: the final value is the initial one divided by some
power of the factor. -/
theorem lr_monotone_and_division_only (annealLr : Bool) (nonmono : ℕ)
    (lrFactor : ℚ) (e : ℕ) (ppls : List PyFloat) (s s2 : SelState)
    (hf : 1 ≤ lrFactor)
    (h : selectRun annealLr nonmono lrFactor e ppls s = .ok s2) :
    s2.lr ≤ s.lr ∧ ∃ k : ℕ, s2.lr = s.lr / lrFactor ^ k := by
  induction ppls generalizing e s with
  | nil =>
    simp only [selectRun] at h
    injection h with h1
    subst h1
    exact ⟨le_refl _, 0, by simp⟩
  | cons p ps ih =>
    simp only [selectRun] at h
    cases hstep : selectStep annealLr nonmono lrFactor e p
        { s with lr := trainForEpochLr s.lr } with
    | error err => rw [hstep] at h; cases h
    | ok pr =>
      rw [hstep] at h
      dsimp only at h
      obtain ⟨s1, w⟩ := pr
      rcases ih (e + 1) s1 h with ⟨hle, k, hk⟩
      rcases selectStep_ok_cases _ _ _ _ _ _ _ _ hstep with
        ⟨-, -, rfl⟩ | ⟨-, -, -, -, -, -, -, hlr⟩
      · exact ⟨by simpa [trainForEpochLr] using hle, k,
          by simpa [trainForEpochLr] using hk⟩
      · rcases hlr with hsame | ⟨hdiv, hfl⟩
        · have hsame2 : s1.lr = s.lr := by simpa [trainForEpochLr] using hsame
          rw [hsame2] at hle hk
          exact ⟨hle, k, hk⟩
        · have hfl2 : lrFloor < s.lr := by simpa [trainForEpochLr] using hfl
          have hdiv2 : s1.lr = s.lr / lrFactor := by
            simpa [trainForEpochLr] using hdiv
          have hpos : (0 : ℚ) < s.lr := lt_trans lrFloor_pos hfl2
          have hle1 : s.lr / lrFactor ≤ s.lr := div_le_self (le_of_lt hpos) hf
          constructor
          · calc s2.lr ≤ s1.lr := hle
              _ = s.lr / lrFactor := hdiv2
              _ ≤ s.lr := hle1
          · refine ⟨k + 1, ?_⟩
            rw [hk, hdiv2, div_div, ← pow_succ']

theorem lr_monotone_and_division_only_witness :
    (mkRat 1 4 : ℚ) ≤ 1 ∧ ∃ k : ℕ, (mkRat 1 4 : ℚ) = 1 / 4 ^ k := by
  have h := lr_monotone_and_division_only true 1 4 0 [.val 3, .val 4]
    ⟨0, .val 1, [.val 2], 1, true, 1⟩
    ⟨0, .val 1, [.val 2, .val 3, .val 4], mkRat 1 4, true, 1⟩
    (by norm_num) rfl
  exact h

/-- C7, counterexample: with `lr_factor = 1/2` a triggered annealing step
doubles the learning rate — it is not non-increasing for every choice of
hyperparameters. -/
theorem lr_increase_factor_lt_one_cex :
    selectRun true 1 (mkRat 1 2) 0 [.val 3, .val 4]
        ⟨0, .val 1, [.val 2], 1, true, 1⟩ =
      .ok ⟨0, .val 1, [.val 2, .val 3, .val 4], 2, true, 1⟩ ∧
    ¬ ((2 : ℚ) ≤ 1) := ⟨rfl, by norm_num⟩

theorem pyLt_val_inv (p : PyFloat) (b : ℚ) (h : pyLt p (.val b) = true) :
    ∃ q, p = PyFloat.val q ∧ q < b := by
  cases p with
  | nan => simp [pyLt] at h
  | val q => exact ⟨q, rfl, by simpa [pyLt] using h⟩

theorem selectStep_bestBounded (annealLr : Bool) (nonmono : ℕ) (lrFactor : ℚ)
    (e : ℕ) (p : PyFloat) (s s2 : SelState) (w : Bool)
    (h : selectStep annealLr nonmono lrFactor e p s = .ok (s2, w))
    (hb : bestBounded s) : bestBounded s2 := by
  rcases selectStep_ok_cases _ _ _ _ _ _ _ _ h with
    ⟨-, hlt, rfl⟩ | ⟨-, -, -, h2, -, -, -, -⟩
  · rcases hb with ⟨b, hbv, hble⟩
    rw [hbv] at hlt
    rcases pyLt_val_inv _ _ hlt with ⟨q, rfl, hqb⟩
    exact ⟨q, rfl, le_of_lt (lt_of_lt_of_le hqb hble)⟩
  · rcases hb with ⟨b, hbv, hble⟩
    exact ⟨b, h2 ▸ hbv, hble⟩

theorem selectRun_bestBounded (annealLr : Bool) (nonmono : ℕ) (lrFactor : ℚ) :
    ∀ (ppls : List PyFloat) (e : ℕ) (s s2 : SelState),
      bestBounded s →
      selectRun annealLr nonmono lrFactor e ppls s = .ok s2 →
      bestBounded s2 := by
  intro ppls
  induction ppls with
  | nil =>
    intro e s s2 hb h
    simp only [selectRun] at h
    injection h with h1
    subst h1
    exact hb
  | cons p ps ih =>
    intro e s s2 hb h
    simp only [selectRun] at h
    cases hstep : selectStep annealLr nonmono lrFactor e p
        { s with lr := trainForEpochLr s.lr } with
    | error err => rw [hstep] at h; cases h
    | ok pr =>
      rw [hstep] at h
      dsimp only at h
      obtain ⟨s1, w⟩ := pr
      have hb1 : bestBounded { s with lr := trainForEpochLr s.lr } := by
        rcases hb with ⟨b, h1, h2⟩
        exact ⟨b, h1, h2⟩
      exact ih (e + 1) s1 s2
        (selectStep_bestBounded _ _ _ _ _ _ _ _ hstep hb1) h

theorem selectStep_no_save_of_big (annealLr : Bool) (nonmono : ℕ)
    (lrFactor : ℚ) (e : ℕ) (p : PyFloat) (s s2 : SelState) (w : Bool)
    (hb : bestBounded s)
    (hp : pyLt p (.val 1000000000) = false)
    (h : selectStep annealLr nonmono lrFactor e p s = .ok (s2, w)) :
    w = false ∧ s2.saves = s.saves ∧ s2.ckptExists = s.ckptExists ∧
      bestBounded s2 := by
  rcases selectStep_ok_cases _ _ _ _ _ _ _ _ h with
    ⟨hw, hlt, rfl⟩ | ⟨hw, hlt, h1, h2, h3, h4, h5, h6⟩
  · exfalso
    rcases hb with ⟨b, hbv, hble⟩
    rw [hbv] at hlt
    rcases pyLt_val_inv _ _ hlt with ⟨q, rfl, hqb⟩
    have hq9 : q < 1000000000 := by
      have hb9 : b ≤ 1000000000 := by
        calc b ≤ 10 ^ 9 := hble
          _ = 1000000000 := by norm_num
      exact lt_of_lt_of_le hqb hb9
    have hp2 : ¬ (q < 1000000000) := by simpa [pyLt] using hp
    exact hp2 hq9
  · refine ⟨hw, h4, h3, ?_⟩
    rcases hb with ⟨b, hbv, hble⟩
    exact ⟨b, h2 ▸ hbv, hble⟩

theorem selectRun_no_save (annealLr : Bool) (nonmono : ℕ) (lrFactor : ℚ) :
    ∀ (ppls : List PyFloat) (e : ℕ) (s s2 : SelState),
      bestBounded s →
      (∀ p ∈ ppls, pyLt p (.val 1000000000) = false) →
      selectRun annealLr nonmono lrFactor e ppls s = .ok s2 →
      s2.saves = s.saves ∧ s2.ckptExists = s.ckptExists ∧ bestBounded s2 := by
  intro ppls
  induction ppls with
  | nil =>
    intro e s s2 hb hp h
    simp only [selectRun] at h
    injection h with h1
    subst h1
    exact ⟨rfl, rfl, hb⟩
  | cons p ps ih =>
    intro e s s2 hb hp h
    simp only [selectRun] at h
    cases hstep : selectStep annealLr nonmono lrFactor e p
        { s with lr := trainForEpochLr s.lr } with
    | error err => rw [hstep] at h; cases h
    | ok pr =>
      rw [hstep] at h
      dsimp only at h
      obtain ⟨s1, w⟩ := pr
      have hb1 : bestBounded { s with lr := trainForEpochLr s.lr } := by
        rcases hb with ⟨b, h1, h2⟩
        exact ⟨b, h1, h2⟩
      rcases selectStep_no_save_of_big _ _ _ _ _ _ _ _ hb1
        (hp p (by simp)) hstep with ⟨-, hsv, hck, hb2⟩
      rcases ih (e + 1) s1 s2 hb2 (fun q hq => hp q (by simp [hq])) h with
        ⟨i1, i2, i3⟩
      refine ⟨?_, ?_, i3⟩
      · rw [i1, hsv]
      · rw [i2, hck]

/-- C10: the best-seen perplexity starts at the `1e9` sentinel, so an epoch
whose perplexity is `≥ 1e9` or NaN never writes the checkpoint (first
conjunct: after any prefix of the run); and if no epoch of the run beats the
sentinel, nothing is written, the checkpoint flag keeps its initial value,
and the end-of-training reload succeeds iff a checkpoint file already
existed before the run (second conjunct). -/
theorem sentinel_no_save_and_reload (annealLr : Bool) (nonmono : ℕ)
    (lrFactor : ℚ) (preexists : Bool) (lr0 : ℚ) :
    (∀ (prevPpls : List PyFloat) (e1 : ℕ) (s1 : SelState),
        selectRun annealLr nonmono lrFactor e1 prevPpls
            (initSelState preexists lr0) = .ok s1 →
        ∀ (p : PyFloat) (e2 : ℕ) (s2 : SelState) (w : Bool),
          pyLt p (.val 1000000000) = false →
          selectStep annealLr nonmono lrFactor e2 p s1 = .ok (s2, w) →
          w = false) ∧
    (∀ (ppls : List PyFloat) (e : ℕ) (s2 : SelState),
        (∀ p ∈ ppls, pyLt p (.val 1000000000) = false) →
        selectRun annealLr nonmono lrFactor e ppls
            (initSelState preexists lr0) = .ok s2 →
        s2.saves = 0 ∧ s2.ckptExists = preexists ∧
          (ckptReload s2 = .ok () ↔ preexists = true)) := by
  have hinit : bestBounded (initSelState preexists lr0) :=
    ⟨1000000000, rfl, by norm_num⟩
  constructor
  · intro prevPpls e1 s1 hrun p e2 s2 w hp hstep
    have hb1 : bestBounded s1 :=
      selectRun_bestBounded _ _ _ prevPpls e1 _ s1 hinit hrun
    exact (selectStep_no_save_of_big _ _ _ _ _ _ _ _ hb1 hp hstep).1
  · intro ppls e s2 hp hrun
    rcases selectRun_no_save _ _ _ ppls e _ s2 hinit hp hrun with ⟨h1, h2, -⟩
    refine ⟨h1, h2, ?_⟩
    rw [ckptReload, h2]
    cases preexists <;> simp [initSelState]

theorem sentinel_no_save_and_reload_witness :
    ((false : Bool) = false) ∧
    (SelState.saves ⟨0, .val 1000000000, [.val 2000000000, .nan], 1, false, 0⟩ = 0 ∧
     SelState.ckptExists ⟨0, .val 1000000000, [.val 2000000000, .nan], 1, false, 0⟩ = false ∧
     (ckptReload ⟨0, .val 1000000000, [.val 2000000000, .nan], 1, false, 0⟩ = .ok () ↔
       (false : Bool) = true)) := by
  have h := sentinel_no_save_and_reload false 10 4 false 1
  exact ⟨h.1 [] 0 (initSelState false 1) rfl .nan 0
      ⟨0, .val 1000000000, [.nan], 1, false, 0⟩ false rfl rfl,
    h.2 [.val 2000000000, .nan] 0
      ⟨0, .val 1000000000, [.val 2000000000, .nan], 1, false, 0⟩
      (by decide) rfl⟩
